import Mathlib

/-!
Verification development for the ericspeed terminal speed-test client.

The measurement engine (src/speedtest/ping.rs, download.rs, upload.rs) and the
orchestrator/consumer (src/app.rs, src/main.rs) are shallowly embedded below.
Modelling conventions, used throughout:
  * Rust `f64` values (latency samples, throughput figures, timestamps in
    seconds) are modelled as `ℚ`; `Real.sqrt` is used where the source calls
    `f64::sqrt`.
  * Rust `u64`/`usize` byte counters are modelled as `ℕ`.
  * The network environment is an explicit input: a trace of per-request
    outcomes (chunk sizes, arrival timestamps, per-send success flags).
  * `Instant::now()` readings are the timestamps carried by the trace.
-/

/-- One push into a bounded sample window, as written at its three use sites:
`samples.push(x)` followed by `if samples.len() > cap { samples.remove(0) }`
(src/speedtest/download.rs lines 49-54 and src/speedtest/upload.rs lines 50-55
with `cap = 200`, src/app.rs `App::update_ping_progress` with `cap = 100`). -/
def windowPush (cap : ℕ) (w : List ℚ) (x : ℚ) : List ℚ :=
  let w' := w ++ [x]
  if cap < w'.length then w'.eraseIdx 0 else w'

theorem eraseIdx_zero_eq_drop (l : List ℚ) : l.eraseIdx 0 = l.drop 1 := by
  cases l <;> rfl

theorem windowPush_length (cap : ℕ) (w : List ℚ) (x : ℚ) (h : w.length ≤ cap) :
    (windowPush cap w x).length ≤ cap := by
  unfold windowPush
  by_cases hc : cap < (w ++ [x]).length
  · simp only [hc, if_true]
    rw [eraseIdx_zero_eq_drop, List.length_drop]
    simp at hc ⊢
    omega
  · simp only [hc, if_false]
    simp at hc ⊢
    omega

theorem windowPush_foldl (cap : ℕ) :
    ∀ (xs acc : List ℚ), acc.length ≤ cap →
      List.foldl (windowPush cap) acc xs =
        (acc ++ xs).drop (acc.length + xs.length - cap) := by
  intro xs
  induction xs with
  | nil =>
    intro acc h
    simp [Nat.sub_eq_zero_of_le h]
  | cons x xs ih =>
    intro acc h
    rw [List.foldl_cons, ih (windowPush cap acc x) (windowPush_length cap acc x h)]
    unfold windowPush
    by_cases hc : cap < (acc ++ [x]).length
    · simp only [hc, if_true]
      rw [eraseIdx_zero_eq_drop]
      have hlen : ((acc ++ [x]).drop 1).length = acc.length := by
        rw [List.length_drop]; simp
      rw [hlen]
      have hone : (1 : ℕ) ≤ (acc ++ [x]).length := by simp
      rw [← List.drop_append_of_le_length hone, List.drop_drop]
      have hacc : acc.length = cap := by simp at hc; omega
      have harith : 1 + (acc.length + xs.length - cap) =
          acc.length + (x :: xs).length - cap := by
        simp [List.length_cons]; omega
      rw [harith]
      simp
    · simp only [hc, if_false]
      have hlen : (acc ++ [x]).length = acc.length + 1 := by simp
      rw [hlen]
      have harith : acc.length + 1 + xs.length - cap =
          acc.length + (x :: xs).length - cap := by
        simp [List.length_cons]; omega
      rw [harith]
      simp

/-- C3: for every sequence of N ≥ 0 pushes into a sample window of capacity
`cap` (instantiated at 200 for the throughput windows and 100 for the latency
chart window), the contents have length `min N cap` and equal the `cap`
most-recently-pushed values in push order (FIFO eviction); length never
exceeds capacity. -/
theorem C3_sample_window (cap : ℕ) (xs : List ℚ) :
    (List.foldl (windowPush cap) [] xs).length = min xs.length cap ∧
    List.foldl (windowPush cap) [] xs = xs.drop (xs.length - cap) := by
  have h := windowPush_foldl cap xs [] (by simp)
  simp only [List.nil_append, List.length_nil, Nat.zero_add] at h
  refine ⟨?_, h⟩
  rw [h, List.length_drop]
  omega

/-- `PingProgress` (src/speedtest/ping.rs lines 64-67): the event emitted once
per latency iteration, carrying `samples.last()`. -/
structure PingProgress where
  latest_ping : Option ℚ
deriving DecidableEq

/-- `PingResult` (src/speedtest/ping.rs lines 69-73). `jitter_ms` is a square
root, hence modelled in `ℝ`. -/
structure PingResult where
  avg_ms : ℚ
  jitter_ms : ℝ

/-- `PingTest::calculate_result` (src/speedtest/ping.rs lines 46-61): early
return (0, 0) on no samples, else mean, and for more than one sample the
square root of the Bessel-corrected variance. -/
noncomputable def calculate_result (samples : List ℚ) : PingResult :=
  if samples = [] then { avg_ms := 0, jitter_ms := 0 }
  else
    let avg : ℚ := samples.sum / (samples.length : ℚ)
    let jitter : ℝ :=
      if 1 < samples.length then
        Real.sqrt (((samples.map (fun x => (x - avg) ^ 2)).sum /
          ((samples.length - 1 : ℕ) : ℚ) : ℚ) : ℝ)
      else 0
    { avg_ms := avg, jitter_ms := jitter }

/-- Spec-side mean, from the spec's words: arithmetic mean of all recorded
samples, 0 when zero samples were recorded. -/
def specMean (samples : List ℚ) : ℚ :=
  if samples = [] then 0 else samples.sum / (samples.length : ℚ)

/-- Spec-side jitter, from the spec's words: sample standard deviation with
denominator N − 1 (Bessel's correction), or 0 if fewer than 2 samples were
recorded. -/
noncomputable def specJitter (samples : List ℚ) : ℝ :=
  if samples.length < 2 then 0
  else Real.sqrt (((samples.map (fun x => (x - specMean samples) ^ 2)).sum /
    ((samples.length : ℚ) - 1) : ℚ) : ℝ)

/-- C1: every latency result has mean equal to the arithmetic mean of the
recorded samples and jitter equal to the sample standard deviation with
denominator N − 1; jitter is 0 for fewer than 2 samples and both are 0 for
zero samples. Concretely, samples [10, 20, 30] give mean = 20 and jitter = 10,
and the single sample [15] gives jitter = 0. -/
theorem C1_latency_statistics :
    (∀ samples : List ℚ, (calculate_result samples).avg_ms = specMean samples ∧
      (calculate_result samples).jitter_ms = specJitter samples) ∧
    calculate_result [10, 20, 30] = { avg_ms := 20, jitter_ms := 10 } ∧
    (calculate_result [15]).jitter_ms = 0 ∧
    calculate_result [] = { avg_ms := 0, jitter_ms := 0 } := by
  have href : ∀ samples : List ℚ,
      (calculate_result samples).avg_ms = specMean samples ∧
      (calculate_result samples).jitter_ms = specJitter samples := by
    intro samples
    by_cases hs : samples = []
    · subst hs
      simp [calculate_result, specMean, specJitter]
    · have hlen : 1 ≤ samples.length := by
        cases samples with
        | nil => exact absurd rfl hs
        | cons a l => simp
      constructor
      · simp [calculate_result, specMean, hs]
      · by_cases h2 : 1 < samples.length
        · have hnot : ¬ samples.length < 2 := by omega
          have hcast : ((samples.length - 1 : ℕ) : ℚ) = (samples.length : ℚ) - 1 := by
            push_cast [Nat.cast_sub hlen]
            ring
          simp [calculate_result, specJitter, specMean, hs, h2, hnot, hcast]
        · have hyes : samples.length < 2 := by omega
          simp [calculate_result, specJitter, hs, h2, hyes]
  refine ⟨href, ?_, ?_, ?_⟩
  · have havg : ((10 : ℚ) + (20 + (30 + 0))) / ((3 : ℕ) : ℚ) = 20 := by norm_num
    have hvar : (((10 : ℚ) - 20) ^ 2 + ((20 - 20) ^ 2 + ((30 - 20) ^ 2 + 0))) /
        (((3 : ℕ) - 1 : ℕ) : ℚ) = 100 := by norm_num
    unfold calculate_result
    simp only [List.sum_cons, List.sum_nil, List.map_cons, List.map_nil,
      List.length_cons, List.length_nil]
    norm_num
    have hsqrt : Real.sqrt 100 = 10 := by
      rw [show (100 : ℝ) = 10 ^ 2 by norm_num]
      exact Real.sqrt_sq (by norm_num)
    rw [if_neg (by simp : ¬([10, 20, 30] : List ℚ) = []), hsqrt]
  · unfold calculate_result
    norm_num
  · unfold calculate_result
    simp

/-- One iteration of the `PingTest::run` loop (src/speedtest/ping.rs lines
27-41). `outcome = some t` models the request completing successfully with
elapsed time `t` ms, `none` a failed request. On success the elapsed time is
pushed onto `samples`; either way a progress event carrying
`samples.last().copied()` is then emitted. The state is (samples, emitted
events). -/
def pingStep (st : List ℚ × List PingProgress) (outcome : Option ℚ) :
    List ℚ × List PingProgress :=
  let samples :=
    match outcome with
    | some elapsed => st.1 ++ [elapsed]
    | none => st.1
  (samples, st.2 ++ [{ latest_ping := samples.getLast? }])

/-- The `PingTest::run` iteration loop over a trace of per-iteration request
outcomes, starting from cleared samples: returns the recorded samples and the
emitted progress events. -/
def pingRun (outcomes : List (Option ℚ)) : List ℚ × List PingProgress :=
  List.foldl pingStep ([], []) outcomes

/-- C2 is false as stated: when the first iteration succeeds with 15 ms and
the second iteration's request fails, the failed iteration's progress event
carries `some 15` (the most recent recorded sample), not "no value". -/
theorem C2_counterexample :
    (pingRun [some 15, none]).1 = [15] ∧
    (pingRun [some 15, none]).2 =
      [{ latest_ping := some 15 }, { latest_ping := some 15 }] ∧
    ({ latest_ping := some 15 } : PingProgress) ≠ { latest_ping := none } := by
  refine ⟨rfl, rfl, ?_⟩
  decide

/-- C2 amended: a latency iteration whose request fails records no sample and
still emits a progress event, but the event carries the most recently
recorded sample (`getLast?` of the samples so far) — which is absent only
when no earlier iteration succeeded. -/
theorem C2_failed_iteration (outcomes : List (Option ℚ)) :
    (pingRun (outcomes ++ [none])).1 = (pingRun outcomes).1 ∧
    (pingRun (outcomes ++ [none])).2 = (pingRun outcomes).2 ++
      [{ latest_ping := (pingRun outcomes).1.getLast? }] := by
  unfold pingRun
  rw [List.foldl_append]
  exact ⟨rfl, rfl⟩

/-- `DownloadProgress` (src/speedtest/download.rs lines 76-81). -/
structure DownloadProgress where
  downloaded_bytes : ℕ
  total_bytes : ℕ
  speed_samples : List ℚ
deriving DecidableEq

/-- The mutable loop state of `DownloadTest::run` (src/speedtest/download.rs
lines 32-37), together with the progress events sent so far over the
channel. -/
structure DlState where
  downloaded : ℕ
  last_update : ℚ
  last_downloaded : ℕ
  speed_samples : List ℚ
  events : List DownloadProgress
deriving DecidableEq

/-- One iteration of the `DownloadTest::run` stream loop (src/speedtest/
download.rs lines 39-67) for a chunk of `c.1` bytes whose `Instant::now()`
reading is `c.2` seconds. `interval` is the sampling interval — 100 ms = 1/10 s
in the source (`Duration::from_millis(100)`); it is a parameter so that its
choice can be varied (C7). -/
def dlStep (interval : ℚ) (total_size : ℕ) (s : DlState) (c : ℕ × ℚ) : DlState :=
  let downloaded := s.downloaded + c.1
  let intv := c.2 - s.last_update
  if interval ≤ intv then
    let mbps := (((downloaded - s.last_downloaded : ℕ) : ℚ) * 8) / intv / 1000000
    let samples := windowPush 200 s.speed_samples mbps
    { downloaded := downloaded, last_update := c.2, last_downloaded := downloaded,
      speed_samples := samples,
      events := s.events ++ [{ downloaded_bytes := downloaded,
                               total_bytes := total_size,
                               speed_samples := samples }] }
  else
    { s with downloaded := downloaded }

/-- `DownloadTest::run` (src/speedtest/download.rs lines 21-73) over an
environment trace: `clen` is `response.content_length()`, `chunks` the
streamed body chunks with their arrival times, `t0` the `start`/`last_update`
reading, `t1` the final `start.elapsed()` reading's end point. Returns the
final loop state and the returned `avg_speed_mbps`. -/
def dlRun (interval : ℚ) (download_size : ℕ) (clen : Option ℕ) (t0 : ℚ)
    (chunks : List (ℕ × ℚ)) (t1 : ℚ) : DlState × ℚ :=
  let total_size := clen.getD download_size
  let final := List.foldl (dlStep interval total_size)
    { downloaded := 0, last_update := t0, last_downloaded := 0,
      speed_samples := [], events := [] } chunks
  (final, ((final.downloaded : ℚ) * 8) / (t1 - t0) / 1000000)

theorem dlStep_downloaded (interval : ℚ) (T : ℕ) (s : DlState) (c : ℕ × ℚ) :
    (dlStep interval T s c).downloaded = s.downloaded + c.1 := by
  simp only [dlStep]
  split <;> rfl

theorem dlFold_downloaded (interval : ℚ) (T : ℕ) (chunks : List (ℕ × ℚ)) :
    ∀ s : DlState, (List.foldl (dlStep interval T) s chunks).downloaded =
      s.downloaded + (chunks.map Prod.fst).sum := by
  induction chunks with
  | nil => intro s; simp
  | cons c cs ih =>
    intro s
    rw [List.foldl_cons, ih, dlStep_downloaded]
    simp [List.map_cons]
    omega

/-- C4: for every download run that completes, the returned average
throughput equals (total bytes actually read × 8) / (total elapsed seconds) /
1,000,000, computed over the whole transfer — a function of the byte total
and elapsed wall-clock time only, not of the windowed instantaneous
samples. -/
theorem C4_download_average (download_size : ℕ) (clen : Option ℕ) (t0 : ℚ)
    (chunks : List (ℕ × ℚ)) (t1 : ℚ) :
    (dlRun (1/10) download_size clen t0 chunks t1).2 =
      (((chunks.map Prod.fst).sum : ℚ) * 8) / (t1 - t0) / 1000000 := by
  unfold dlRun
  simp [dlFold_downloaded]

/-- `UploadProgress` (src/speedtest/upload.rs lines 77-82). -/
structure UploadProgress where
  uploaded_bytes : ℕ
  total_bytes : ℕ
  speed_samples : List ℚ
deriving DecidableEq

/-- One chunk send of the `UploadTest::run` loop: `len` is `chunk.len()`,
`ok` whether the POST send succeeded (the source discards this result), and
`time` the `Instant::now()` reading taken after the send. -/
structure UlChunk where
  len : ℕ
  ok : Bool
  time : ℚ
deriving DecidableEq

/-- The mutable loop state of `UploadTest::run` (src/speedtest/upload.rs
lines 32-37), together with the progress events sent so far. -/
structure UlState where
  uploaded : ℕ
  last_update : ℚ
  last_uploaded : ℕ
  speed_samples : List ℚ
  events : List UploadProgress
deriving DecidableEq

/-- One iteration of the `UploadTest::run` chunk loop (src/speedtest/upload.rs
lines 40-68). The send's outcome `c.ok` is discarded
(`let _ = client.post(..).send().await;`): `uploaded` grows by `c.len`
whether or not the send succeeded. -/
def ulStep (interval : ℚ) (upload_size : ℕ) (s : UlState) (c : UlChunk) :
    UlState :=
  let uploaded := s.uploaded + c.len
  let intv := c.time - s.last_update
  if interval ≤ intv then
    let mbps := (((uploaded - s.last_uploaded : ℕ) : ℚ) * 8) / intv / 1000000
    let samples := windowPush 200 s.speed_samples mbps
    { uploaded := uploaded, last_update := c.time, last_uploaded := uploaded,
      speed_samples := samples,
      events := s.events ++ [{ uploaded_bytes := uploaded,
                               total_bytes := upload_size,
                               speed_samples := samples }] }
  else
    { s with uploaded := uploaded }

/-- `UploadTest::run` (src/speedtest/upload.rs lines 26-74) over an
environment trace: `chunks` models `self.data.chunks(CHUNK_SIZE)` paired with
each send's outcome and timing, `t0` the `start`/`last_update` reading, `t1`
the end point of the final `start.elapsed()`. The returned `avg_speed_mbps`
uses the declared `upload_size`. -/
def ulRun (interval : ℚ) (upload_size : ℕ) (t0 : ℚ) (chunks : List UlChunk)
    (t1 : ℚ) : UlState × ℚ :=
  let final := List.foldl (ulStep interval upload_size)
    { uploaded := 0, last_update := t0, last_uploaded := 0,
      speed_samples := [], events := [] } chunks
  (final, ((upload_size : ℚ) * 8) / (t1 - t0) / 1000000)

theorem ulStep_ok_irrelevant (interval : ℚ) (sz : ℕ) (s : UlState)
    (c : UlChunk) :
    ulStep interval sz s { c with ok := true } = ulStep interval sz s c := rfl

theorem ulFold_ok_irrelevant (interval : ℚ) (sz : ℕ) (chunks : List UlChunk) :
    ∀ s : UlState,
      List.foldl (ulStep interval sz) s
          (chunks.map fun c => { c with ok := true }) =
        List.foldl (ulStep interval sz) s chunks := by
  induction chunks with
  | nil => intro s; rfl
  | cons c cs ih =>
    intro s
    rw [List.map_cons, List.foldl_cons, List.foldl_cons,
      ulStep_ok_irrelevant, ih]

theorem ulStep_uploaded (interval : ℚ) (sz : ℕ) (s : UlState) (c : UlChunk) :
    (ulStep interval sz s c).uploaded = s.uploaded + c.len := by
  simp only [ulStep]
  split <;> rfl

theorem ulFold_uploaded (interval : ℚ) (sz : ℕ) (chunks : List UlChunk) :
    ∀ s : UlState, (List.foldl (ulStep interval sz) s chunks).uploaded =
      s.uploaded + (chunks.map UlChunk.len).sum := by
  induction chunks with
  | nil => intro s; simp
  | cons c cs ih =>
    intro s
    rw [List.foldl_cons, ih, ulStep_uploaded]
    simp [List.map_cons]
    omega

/-- C5: every upload run returns an average throughput computed over the
total declared payload size and the total elapsed wall-clock time, using the
declared size even when some per-chunk sends failed; per-chunk send failures
are swallowed, not retried, and do not abort the probe — the whole run is
identical to one in which every send succeeded. -/
theorem C5_upload_average (interval : ℚ) (upload_size : ℕ) (t0 : ℚ)
    (chunks : List UlChunk) (t1 : ℚ) :
    (ulRun interval upload_size t0 chunks t1).2 =
      ((upload_size : ℚ) * 8) / (t1 - t0) / 1000000 ∧
    ulRun interval upload_size t0 (chunks.map fun c => { c with ok := true })
        t1 =
      ulRun interval upload_size t0 chunks t1 := by
  constructor
  · rfl
  · unfold ulRun
    rw [ulFold_ok_irrelevant]

/-- C6 is false as stated: in a two-chunk upload where the second chunk's
send fails, the progress event emitted after the failed send carries
`uploaded_bytes = 2000000` — the failed chunk's 1000000 bytes are included in
the cumulative figure, not omitted. -/
theorem C6_counterexample :
    ((ulRun (1/10) 2000000 0
        [{ len := 1000000, ok := true, time := 1/5 },
         { len := 1000000, ok := false, time := 2/5 }] 1).1.events.map
      (fun e => e.uploaded_bytes)) = [1000000, 2000000] ∧
    (2000000 : ℕ) ≠ 1000000 := by
  constructor
  · norm_num [ulRun, ulStep, windowPush]
  · decide

/-- C6 amended: per-chunk upload send failures are swallowed and leave no
trace in the progress stream: the cumulative uploaded-bytes figure counts
every chunk sent so far, failed chunks included (in total, the sum of all
chunk lengths), and the emitted events are identical to those of a run in
which every send succeeded, while the run continues to completion. -/
theorem C6_failed_chunks_counted (interval : ℚ) (upload_size : ℕ) (t0 : ℚ)
    (chunks : List UlChunk) (t1 : ℚ) :
    (ulRun interval upload_size t0 chunks t1).1.uploaded =
      (chunks.map UlChunk.len).sum ∧
    (ulRun interval upload_size t0 chunks t1).1.events =
      (ulRun interval upload_size t0
        (chunks.map fun c => { c with ok := true }) t1).1.events := by
  constructor
  · unfold ulRun
    rw [ulFold_uploaded]
    simp
  · unfold ulRun
    rw [ulFold_ok_irrelevant]

/-- C7: the final average throughput of a download or upload run is invariant
under the choice of the progress-sampling interval (100 ms in the source):
two runs over the same trace with different sampling intervals return the
same average; only the emitted progress events differ. -/
theorem C7_sampling_interval_invariance (i1 i2 : ℚ) (download_size : ℕ)
    (clen : Option ℕ) (t0 : ℚ) (chunks : List (ℕ × ℚ)) (t1 : ℚ)
    (upload_size : ℕ) (u0 : ℚ) (uchunks : List UlChunk) (u1 : ℚ) :
    (dlRun i1 download_size clen t0 chunks t1).2 =
      (dlRun i2 download_size clen t0 chunks t1).2 ∧
    (ulRun i1 upload_size u0 uchunks u1).2 =
      (ulRun i2 upload_size u0 uchunks u1).2 := by
  constructor
  · unfold dlRun
    simp [dlFold_downloaded]
  · rfl

theorem mem_of_getLast?_mem {α : Type} {l : List α} {x : α}
    (h : x ∈ l.getLast?) : x ∈ l := by
  obtain ⟨hne, hx⟩ := List.mem_getLast?_eq_getLast h
  subst hx
  exact List.getLast_mem hne

theorem dlStep_events_inv (interval : ℚ) (T : ℕ) (s : DlState) (c : ℕ × ℚ)
    (h1 : ∀ e ∈ s.events, e.total_bytes = T)
    (h2 : ∀ e ∈ s.events, e.downloaded_bytes ≤ s.downloaded)
    (h3 : List.Chain' (fun a b => a.downloaded_bytes ≤ b.downloaded_bytes)
      s.events) :
    (∀ e ∈ (dlStep interval T s c).events, e.total_bytes = T) ∧
    (∀ e ∈ (dlStep interval T s c).events,
      e.downloaded_bytes ≤ (dlStep interval T s c).downloaded) ∧
    List.Chain' (fun a b => a.downloaded_bytes ≤ b.downloaded_bytes)
      (dlStep interval T s c).events := by
  simp only [dlStep]
  split
  · refine ⟨?_, ?_, ?_⟩
    · intro e he
      simp only [List.mem_append, List.mem_singleton] at he
      rcases he with he | he
      · exact h1 e he
      · subst he; rfl
    · intro e he
      simp only [List.mem_append, List.mem_singleton] at he
      rcases he with he | he
      · exact le_trans (h2 e he) (Nat.le_add_right _ _)
      · subst he; exact le_refl _
    · rw [List.chain'_append]
      refine ⟨h3, List.chain'_singleton _, ?_⟩
      intro x hx y hy
      simp only [List.head?_cons, Option.mem_some_iff] at hy
      subst hy
      exact le_trans (h2 x (mem_of_getLast?_mem hx)) (Nat.le_add_right _ _)
  · exact ⟨h1, fun e he => le_trans (h2 e he) (Nat.le_add_right _ _), h3⟩

theorem dlFold_events_inv (interval : ℚ) (T : ℕ) (chunks : List (ℕ × ℚ)) :
    ∀ s : DlState,
      (∀ e ∈ s.events, e.total_bytes = T) →
      (∀ e ∈ s.events, e.downloaded_bytes ≤ s.downloaded) →
      List.Chain' (fun a b => a.downloaded_bytes ≤ b.downloaded_bytes)
        s.events →
      (∀ e ∈ (List.foldl (dlStep interval T) s chunks).events,
        e.total_bytes = T) ∧
      (∀ e ∈ (List.foldl (dlStep interval T) s chunks).events,
        e.downloaded_bytes ≤
          (List.foldl (dlStep interval T) s chunks).downloaded) ∧
      List.Chain' (fun a b => a.downloaded_bytes ≤ b.downloaded_bytes)
        (List.foldl (dlStep interval T) s chunks).events := by
  induction chunks with
  | nil => intro s h1 h2 h3; exact ⟨h1, h2, h3⟩
  | cons c cs ih =>
    intro s h1 h2 h3
    rw [List.foldl_cons]
    obtain ⟨g1, g2, g3⟩ := dlStep_events_inv interval T s c h1 h2 h3
    exact ih (dlStep interval T s c) g1 g2 g3

theorem ulStep_events_total (interval : ℚ) (sz : ℕ) (s : UlState) (c : UlChunk)
    (h1 : ∀ e ∈ s.events, e.total_bytes = sz) :
    ∀ e ∈ (ulStep interval sz s c).events, e.total_bytes = sz := by
  simp only [ulStep]
  split
  · intro e he
    simp only [List.mem_append, List.mem_singleton] at he
    rcases he with he | he
    · exact h1 e he
    · subst he; rfl
  · exact h1

theorem ulFold_events_total (interval : ℚ) (sz : ℕ) (chunks : List UlChunk) :
    ∀ s : UlState, (∀ e ∈ s.events, e.total_bytes = sz) →
      ∀ e ∈ (List.foldl (ulStep interval sz) s chunks).events,
        e.total_bytes = sz := by
  induction chunks with
  | nil => intro s h1; exact h1
  | cons c cs ih =>
    intro s h1
    rw [List.foldl_cons]
    exact ih (ulStep interval sz s c) (ulStep_events_total interval sz s c h1)

/-- C10: in every download run, all progress events carry the identical
`total_bytes` (the response content length, falling back to the declared
size) and their `downloaded_bytes` values are non-decreasing in emission
order; in every upload run, all progress events carry `total_bytes` equal to
the declared upload size. -/
theorem C10_progress_event_invariants (interval : ℚ) (download_size : ℕ)
    (clen : Option ℕ) (t0 : ℚ) (chunks : List (ℕ × ℚ)) (t1 : ℚ)
    (upload_size : ℕ) (u0 : ℚ) (uchunks : List UlChunk) (u1 : ℚ) :
    (∀ e ∈ (dlRun interval download_size clen t0 chunks t1).1.events,
      e.total_bytes = clen.getD download_size) ∧
    List.Chain' (fun a b => a.downloaded_bytes ≤ b.downloaded_bytes)
      (dlRun interval download_size clen t0 chunks t1).1.events ∧
    (∀ e ∈ (ulRun interval upload_size u0 uchunks u1).1.events,
      e.total_bytes = upload_size) := by
  have hdl := dlFold_events_inv interval (clen.getD download_size) chunks
    { downloaded := 0, last_update := t0, last_downloaded := 0,
      speed_samples := [], events := [] }
    (by intro e he; simp at he) (by intro e he; simp at he)
    (by exact List.chain'_nil)
  have hul := ulFold_events_total interval upload_size uchunks
    { uploaded := 0, last_update := u0, last_uploaded := 0,
      speed_samples := [], events := [] }
    (by intro e he; simp at he)
  exact ⟨hdl.1, hdl.2.2, hul⟩

/-- `TestUpdate` (src/app.rs lines 267-274): the single outward event stream
consumed by the presentation layer. -/
inductive TestUpdate
  | pingProgress (p : PingProgress)
  | pingComplete (avg_ms : ℚ) (jitter_ms : ℚ)
  | downloadProgress (p : DownloadProgress)
  | downloadComplete (speed_mbps : ℚ)
  | uploadProgress (p : UploadProgress)
  | uploadComplete (speed_mbps : ℚ)
deriving DecidableEq

/-- `cancel_rx.try_recv().is_ok()` at the orchestrator's i-th cancellation
check (`run_speed_test` performs one check per received progress event,
counted across the whole run): with `cancel = some c` the single-slot signal
has been sent and is observable from the c-th check onward; `none` means it
is never sent. -/
def cancelHit : Option ℕ → ℕ → Bool
  | none, _ => false
  | some c, i => decide (c ≤ i)

/-- One relay loop of `run_speed_test` (src/app.rs lines 289-295, 313-319 and
336-342): each received progress event is preceded by a cancellation check;
on a hit the probe handle is aborted and the function returns early, without
forwarding the event in hand. Returns (forwarded events, next check index,
aborted?). -/
def relay {α : Type} (wrap : α → TestUpdate) (cancel : Option ℕ) :
    List α → ℕ → List TestUpdate × ℕ × Bool
  | [], i => ([], i, false)
  | e :: es, i =>
    if cancelHit cancel i then ([], i, true)
    else
      let r := relay wrap cancel es (i + 1)
      (wrap e :: r.1, r.2.1, r.2.2)

/-- `run_speed_test` (src/app.rs lines 276-352), parametrized by the three
probes' emitted progress events and final results and by the cancellation
schedule. Returns the updates sent over the consumer channel, in send order,
and whether the run completed (sent `UploadComplete`) rather than returning
early on a cancellation hit. -/
def run_speed_test (cancel : Option ℕ) (pingEvs : List PingProgress)
    (ping_avg ping_jitter : ℚ) (dlEvs : List DownloadProgress) (dl_speed : ℚ)
    (ulEvs : List UploadProgress) (ul_speed : ℚ) : List TestUpdate × Bool :=
  let r1 := relay TestUpdate.pingProgress cancel pingEvs 0
  if r1.2.2 then (r1.1, false)
  else
    let out1 := r1.1 ++ [TestUpdate.pingComplete ping_avg ping_jitter]
    let r2 := relay TestUpdate.downloadProgress cancel dlEvs r1.2.1
    if r2.2.2 then (out1 ++ r2.1, false)
    else
      let out2 := out1 ++ r2.1 ++ [TestUpdate.downloadComplete dl_speed]
      let r3 := relay TestUpdate.uploadProgress cancel ulEvs r2.2.1
      if r3.2.2 then (out2 ++ r3.1, false)
      else (out2 ++ r3.1 ++ [TestUpdate.uploadComplete ul_speed], true)

/-- `TestPhase` (src/speedtest/mod.rs lines 13-20). -/
inductive TestPhase
  | Idle
  | Ping
  | Download
  | Upload
  | Complete
deriving DecidableEq

/-- `SpeedTestResult` (src/speedtest/mod.rs lines 5-11): the accumulated run
result, zero-valued by `Default` until a phase completes. -/
structure SpeedTestResult where
  download_mbps : ℚ
  upload_mbps : ℚ
  ping_ms : ℚ
  jitter_ms : ℚ
deriving DecidableEq

/-- The fields of `App` (src/app.rs lines 44-68) touched by a speed-test run;
the pure view state (view, selected panel, expanded, settings, cancel
channel handle) is omitted. -/
structure App where
  phase : TestPhase
  result : SpeedTestResult
  download_progress : ℚ
  upload_progress : ℚ
  download_samples : List ℚ
  upload_samples : List ℚ
  ping_samples : List ℚ
deriving DecidableEq

/-- `App::update_ping_progress` (src/app.rs lines 224-232): push the latest
sample, if present, into the 100-capacity latency chart window. -/
def update_ping_progress (a : App) (progress : PingProgress) : App :=
  match progress.latest_ping with
  | some ping => { a with ping_samples := windowPush 100 a.ping_samples ping }
  | none => a

/-- `App::update_download_progress` (src/app.rs lines 234-237). -/
def update_download_progress (a : App) (progress : DownloadProgress) : App :=
  { a with
      download_progress :=
        (progress.downloaded_bytes : ℚ) / (progress.total_bytes : ℚ),
      download_samples := progress.speed_samples }

/-- `App::update_upload_progress` (src/app.rs lines 239-242). -/
def update_upload_progress (a : App) (progress : UploadProgress) : App :=
  { a with
      upload_progress :=
        (progress.uploaded_bytes : ℚ) / (progress.total_bytes : ℚ),
      upload_samples := progress.speed_samples }

/-- `handle_update` (src/main.rs lines 83-102), with the `App` mutations it
performs inlined (`complete_test` sets the phase to Complete). -/
def handle_update (a : App) : TestUpdate → App
  | TestUpdate.pingProgress p => update_ping_progress a p
  | TestUpdate.pingComplete avg jitter =>
    { a with result := { a.result with ping_ms := avg, jitter_ms := jitter },
             phase := TestPhase.Download }
  | TestUpdate.downloadProgress p => update_download_progress a p
  | TestUpdate.downloadComplete speed =>
    { a with result := { a.result with download_mbps := speed },
             phase := TestPhase.Upload }
  | TestUpdate.uploadProgress p => update_upload_progress a p
  | TestUpdate.uploadComplete speed =>
    { a with result := { a.result with upload_mbps := speed },
             phase := TestPhase.Complete }

/-- `App::reset_for_new_test` (src/app.rs lines 213-222), on the modelled
fields. -/
def reset_for_new_test (a : App) : App :=
  { a with
      phase := TestPhase.Idle,
      result := { download_mbps := 0, upload_mbps := 0,
                  ping_ms := 0, jitter_ms := 0 },
      download_progress := 0,
      upload_progress := 0,
      download_samples := [],
      upload_samples := [],
      ping_samples := [] }

/-- The `StartTest` action of the main loop (src/main.rs lines 52-66):
`reset_for_new_test` followed by `app.phase = TestPhase::Ping`. -/
def start_test (a : App) : App :=
  { reset_for_new_test a with phase := TestPhase.Ping }

/-- `App::cancel_test` (src/app.rs lines 252-257): sends on the cancel
channel (modelled by the run's cancellation schedule) and resets the phase
to Idle. -/
def cancel_test (a : App) : App :=
  { a with phase := TestPhase.Idle }

theorem relay_cases {α : Type} (wrap : α → TestUpdate) (cancel : Option ℕ)
    (evs : List α) : ∀ i : ℕ,
    relay wrap cancel evs i = (evs.map wrap, i + evs.length, false) ∨
    (relay wrap cancel evs i).2.2 = true := by
  induction evs with
  | nil =>
    intro i
    left
    simp [relay]
  | cons e es ih =>
    intro i
    by_cases hc : cancelHit cancel i
    · right
      simp [relay, hc]
    · rcases ih (i + 1) with h | h
      · left
        have hlen : i + 1 + es.length = i + (es.length + 1) := by omega
        simp [relay, hc, h, hlen]
      · right
        simp [relay, hc, h]

theorem relay_complete {α : Type} (wrap : α → TestUpdate) (evs : List α) :
    ∀ (i c : ℕ), i + evs.length ≤ c →
      relay wrap (some c) evs i = (evs.map wrap, i + evs.length, false) := by
  induction evs with
  | nil =>
    intro i c _
    simp [relay]
  | cons e es ih =>
    intro i c h
    simp only [List.length_cons] at h
    have hc : cancelHit (some c) i = false := by
      simp [cancelHit]
      omega
    have hlen : i + 1 + es.length = i + (es.length + 1) := by omega
    simp [relay, hc, ih (i + 1) c (by omega), hlen]

theorem relay_abort {α : Type} (wrap : α → TestUpdate) (evs : List α) :
    ∀ (i c : ℕ), i ≤ c → c < i + evs.length →
      relay wrap (some c) evs i = ((evs.take (c - i)).map wrap, c, true) := by
  induction evs with
  | nil =>
    intro i c h1 h2
    simp at h2
    omega
  | cons e es ih =>
    intro i c h1 h2
    simp only [List.length_cons] at h2
    by_cases hc : c ≤ i
    · have hci : c = i := by omega
      subst hci
      have hhit : cancelHit (some c) c = true := by simp [cancelHit]
      simp [relay, hhit, Nat.sub_self]
    · have hhit : cancelHit (some c) i = false := by
        simp [cancelHit]
        omega
      have htake : (e :: es).take (c - i) = e :: es.take (c - (i + 1)) := by
        have hpos : c - i = (c - (i + 1)) + 1 := by omega
        rw [hpos, List.take_succ_cons]
      simp [relay, hhit, ih (i + 1) c (by omega) (by omega), htake]

/-- C8: every run that completes delivers to the consumer exactly the
sequence PingProgress* · PingComplete · DownloadProgress* ·
DownloadComplete · UploadProgress* · UploadComplete — no interleaving across
phases, each phase-complete event strictly after all progress events of its
phase, and progress events of a phase in the order they were produced. -/
theorem C8_phase_sequence (cancel : Option ℕ) (pingEvs : List PingProgress)
    (ping_avg ping_jitter : ℚ) (dlEvs : List DownloadProgress) (dl_speed : ℚ)
    (ulEvs : List UploadProgress) (ul_speed : ℚ)
    (h : (run_speed_test cancel pingEvs ping_avg ping_jitter dlEvs dl_speed
      ulEvs ul_speed).2 = true) :
    (run_speed_test cancel pingEvs ping_avg ping_jitter dlEvs dl_speed ulEvs
      ul_speed).1 =
      pingEvs.map TestUpdate.pingProgress ++
        [TestUpdate.pingComplete ping_avg ping_jitter] ++
        dlEvs.map TestUpdate.downloadProgress ++
        [TestUpdate.downloadComplete dl_speed] ++
        ulEvs.map TestUpdate.uploadProgress ++
        [TestUpdate.uploadComplete ul_speed] := by
  rcases relay_cases TestUpdate.pingProgress cancel pingEvs 0 with h1 | h1
  · rcases relay_cases TestUpdate.downloadProgress cancel dlEvs
        pingEvs.length with h2 | h2
    · rcases relay_cases TestUpdate.uploadProgress cancel ulEvs
          (pingEvs.length + dlEvs.length) with h3 | h3
      · simp [run_speed_test, h1, h2, h3, List.append_assoc]
      · simp [run_speed_test, h1, h2, h3] at h
    · simp [run_speed_test, h1, h2] at h
  · simp [run_speed_test, h1] at h

/-- Closed instance of C8: a concrete completed run, with the hypothesis
discharged by evaluation. -/
theorem C8_phase_sequence_witness :
    (run_speed_test none [{ latest_ping := some 15 }] 15 0
        [{ downloaded_bytes := 4, total_bytes := 4, speed_samples := [2] }] 2
        [{ uploaded_bytes := 5, total_bytes := 5, speed_samples := [3] }] 3).1 =
      [TestUpdate.pingProgress { latest_ping := some 15 },
       TestUpdate.pingComplete 15 0,
       TestUpdate.downloadProgress
         { downloaded_bytes := 4, total_bytes := 4, speed_samples := [2] },
       TestUpdate.downloadComplete 2,
       TestUpdate.uploadProgress
         { uploaded_bytes := 5, total_bytes := 5, speed_samples := [3] },
       TestUpdate.uploadComplete 3] := by
  have h := C8_phase_sequence none [{ latest_ping := some 15 }] 15 0
    [{ downloaded_bytes := 4, total_bytes := 4, speed_samples := [2] }] 2
    [{ uploaded_bytes := 5, total_bytes := 5, speed_samples := [3] }] 3 rfl
  simpa using h

theorem update_fields_pingProgress (a : App) (p : PingProgress) :
    (update_ping_progress a p).result = a.result ∧
    (update_ping_progress a p).phase = a.phase := by
  unfold update_ping_progress
  cases p.latest_ping <;> exact ⟨rfl, rfl⟩

theorem foldl_pingProgress_result (ps : List PingProgress) :
    ∀ a : App,
      (List.foldl handle_update a (ps.map TestUpdate.pingProgress)).result =
        a.result := by
  induction ps with
  | nil => intro a; rfl
  | cons p ps ih =>
    intro a
    rw [List.map_cons, List.foldl_cons,
      ih (handle_update a (TestUpdate.pingProgress p))]
    exact (update_fields_pingProgress a p).1

theorem foldl_downloadProgress_result (ps : List DownloadProgress) :
    ∀ a : App,
      (List.foldl handle_update a
        (ps.map TestUpdate.downloadProgress)).result = a.result := by
  induction ps with
  | nil => intro a; rfl
  | cons p ps ih =>
    intro a
    rw [List.map_cons, List.foldl_cons,
      ih (handle_update a (TestUpdate.downloadProgress p))]
    rfl

/-- C9: when the cancellation signal is observed during the Download phase
(after the latency phase completed, before the download events were
exhausted), the run returns early; after the consumer has applied the
delivered updates, the accumulated result holds the latency figures while
the download and upload results remain zero-valued, and `cancel_test` resets
the phase to Idle — no result is recorded for the interrupted phase. -/
theorem C9_cancel_during_download (c : ℕ) (pingEvs : List PingProgress)
    (ping_avg ping_jitter : ℚ) (dlEvs : List DownloadProgress) (dl_speed : ℚ)
    (ulEvs : List UploadProgress) (ul_speed : ℚ) (a : App)
    (h1 : pingEvs.length ≤ c) (h2 : c < pingEvs.length + dlEvs.length) :
    (run_speed_test (some c) pingEvs ping_avg ping_jitter dlEvs dl_speed
      ulEvs ul_speed).2 = false ∧
    (cancel_test (List.foldl handle_update (start_test a)
        (run_speed_test (some c) pingEvs ping_avg ping_jitter dlEvs dl_speed
          ulEvs ul_speed).1)).result =
      { download_mbps := 0, upload_mbps := 0,
        ping_ms := ping_avg, jitter_ms := ping_jitter } ∧
    (cancel_test (List.foldl handle_update (start_test a)
        (run_speed_test (some c) pingEvs ping_avg ping_jitter dlEvs dl_speed
          ulEvs ul_speed).1)).phase = TestPhase.Idle := by
  have hr1 : relay TestUpdate.pingProgress (some c) pingEvs 0 =
      (pingEvs.map TestUpdate.pingProgress, 0 + pingEvs.length, false) :=
    relay_complete TestUpdate.pingProgress pingEvs 0 c (by omega)
  have hr2 : relay TestUpdate.downloadProgress (some c) dlEvs
      pingEvs.length =
      ((dlEvs.take (c - pingEvs.length)).map TestUpdate.downloadProgress,
       c, true) :=
    relay_abort TestUpdate.downloadProgress dlEvs pingEvs.length c h1
      (by omega)
  have hrun : run_speed_test (some c) pingEvs ping_avg ping_jitter dlEvs
      dl_speed ulEvs ul_speed =
      (pingEvs.map TestUpdate.pingProgress ++
        [TestUpdate.pingComplete ping_avg ping_jitter] ++
        (dlEvs.take (c - pingEvs.length)).map TestUpdate.downloadProgress,
       false) := by
    simp [run_speed_test, hr1, hr2]
  rw [hrun]
  refine ⟨rfl, ?_, ?_⟩
  · simp only [cancel_test, List.foldl_append, List.foldl_cons,
      List.foldl_nil, foldl_downloadProgress_result, handle_update,
      foldl_pingProgress_result, start_test, reset_for_new_test]
  · simp [cancel_test]

/-- Closed instance of C9: a concrete run cancelled at the first download
progress event, with both hypotheses discharged by evaluation. -/
theorem C9_cancel_during_download_witness :
    (run_speed_test (some 1) [{ latest_ping := some 15 }] 15 0
      [{ downloaded_bytes := 4, total_bytes := 4, speed_samples := [2] }] 2
      [] 3).2 = false ∧
    (cancel_test (List.foldl handle_update
        (start_test { phase := TestPhase.Idle,
                      result := { download_mbps := 0, upload_mbps := 0,
                                  ping_ms := 0, jitter_ms := 0 },
                      download_progress := 0, upload_progress := 0,
                      download_samples := [], upload_samples := [],
                      ping_samples := [] })
        (run_speed_test (some 1) [{ latest_ping := some 15 }] 15 0
          [{ downloaded_bytes := 4, total_bytes := 4, speed_samples := [2] }]
          2 [] 3).1)).result =
      { download_mbps := 0, upload_mbps := 0, ping_ms := 15,
        jitter_ms := 0 } ∧
    (cancel_test (List.foldl handle_update
        (start_test { phase := TestPhase.Idle,
                      result := { download_mbps := 0, upload_mbps := 0,
                                  ping_ms := 0, jitter_ms := 0 },
                      download_progress := 0, upload_progress := 0,
                      download_samples := [], upload_samples := [],
                      ping_samples := [] })
        (run_speed_test (some 1) [{ latest_ping := some 15 }] 15 0
          [{ downloaded_bytes := 4, total_bytes := 4, speed_samples := [2] }]
          2 [] 3).1)).phase = TestPhase.Idle :=
  C9_cancel_during_download 1 [{ latest_ping := some 15 }] 15 0
    [{ downloaded_bytes := 4, total_bytes := 4, speed_samples := [2] }] 2
    [] 3
    { phase := TestPhase.Idle,
      result := { download_mbps := 0, upload_mbps := 0,
                  ping_ms := 0, jitter_ms := 0 },
      download_progress := 0, upload_progress := 0,
      download_samples := [], upload_samples := [], ping_samples := [] }
    (by decide) (by decide)
